import Mathlib

/-!
Verification of the bundle-docs pipeline (src/main.go).

The Go program walks a mkdocs navigation tree, normalizes every referenced
markdown document, and produces a catalog of entries keyed by breadcrumb
path, then reconciles an external symbol/URL list against that catalog.

This file shallowly embeds the relevant functions:
* strings are embedded as `List Char` (wrapped in `String` at the API edges);
* the Go regexp replacements (`ReplaceAllString` / `FindAllStringSubmatch`)
  are embedded as left-to-right scanners: at each position a matcher either
  matches a concrete pattern (returning the match length and the replacement
  or the capture) or the scan advances one character, exactly as Go's
  leftmost-first matching behaves on these concrete patterns; the scanners
  carry a fuel argument (initialised with the string length, enough for the
  whole scan) so that they are structurally recursive and kernel-reducible;
* file access (`os.ReadFile`) and YAML config loading (`parseMkdocs`) are an
  environment of partial functions, since the claims quantify over them;
* the SQLite `INSERT OR IGNORE` on a `PRIMARY KEY` column is embedded as an
  insert-or-ignore fold over an association structure keyed by that column.
-/

/-! ## Basic character classes and list/string utilities -/

/-- The character class of Go's regexp `\s`, i.e. `[\t\n\f\r ]`. -/
def isRegexSpace (c : Char) : Bool :=
  c = ' ' || c = '\t' || c = '\n' || c = '\x0c' || c = '\r'

/-- `unicode.IsSpace` as used by Go's `strings.TrimSpace`
(ASCII whitespace incl. vertical tab, plus NEL, NBSP and the Zs spaces). -/
def isUnicodeSpace (c : Char) : Bool :=
  c = ' ' || c = '\t' || c = '\n' || c = '\u000B' || c = '\u000C' || c = '\r' ||
  c = '\u0085' || c = '\u00A0' || c = '\u1680' ||
  ('\u2000' ≤ c && c ≤ '\u200A') ||
  c = '\u2028' || c = '\u2029' || c = '\u202F' || c = '\u205F' || c = '\u3000'

/-- `strings.TrimSpace`. -/
def trimSpace (s : List Char) : List Char :=
  ((s.dropWhile isUnicodeSpace).reverse.dropWhile isUnicodeSpace).reverse

/-- `strings.TrimPrefix` on character lists. -/
def trimPrefixList (s pre : List Char) : List Char :=
  if pre.isPrefixOf s then s.drop pre.length else s

/-- `strings.TrimSuffix` on character lists. -/
def trimSuffixList (s suf : List Char) : List Char :=
  if suf.isSuffixOf s then s.take (s.length - suf.length) else s

/-- `strings.Join` for strings (the Go semantics: empty list gives ""). -/
def joinStrings (sep : String) : List String → String
  | [] => ""
  | [x] => x
  | x :: xs => x ++ sep ++ joinStrings sep xs

/-- `strings.Join` on character lists. -/
def joinWith (sep : List Char) : List (List Char) → List Char
  | [] => []
  | [x] => x
  | x :: xs => x ++ sep ++ joinWith sep xs

/-- `strings.Split` by a single separator character (never returns `[]`). -/
def splitOnChar (sep : Char) : List Char → List (List Char)
  | [] => [[]]
  | c :: rest =>
    let r := splitOnChar sep rest
    if c = sep then [] :: r
    else
      match r with
      | h :: t => (c :: h) :: t
      | [] => [[c]]

/-- `strings.SplitN (·) (sep) 2`: split at the first occurrence of `sep`;
`none` when `sep` does not occur (Go returns a one-element slice then). -/
def splitFirst (sep : Char) : List Char → Option (List Char × List Char)
  | [] => none
  | c :: rest =>
    if c = sep then some ([], rest)
    else (splitFirst sep rest).map (fun p => (c :: p.1, p.2))

/-- `strings.Index` for a nonempty pattern: index of the first occurrence. -/
def indexOfSub (pat : List Char) : List Char → Option Nat
  | [] => none
  | c :: rest =>
    if pat.isPrefixOf (c :: rest) then some 0
    else (indexOfSub pat rest).map (· + 1)

/-- Index of the earliest occurrence of (nonempty) `close`, as used by a lazy
`(?s)(.*?)` capture: any characters may precede the closing delimiter. -/
def findClose (close : List Char) : List Char → Option Nat
  | [] => none
  | c :: rest =>
    if close.isPrefixOf (c :: rest) then some 0
    else (findClose close rest).map (· + 1)

/-- Index of the earliest occurrence of (nonempty) `close` reachable by a lazy
`(.*?)` capture without the `s` flag: no newline may precede it. -/
def findCloseNoNL (close : List Char) : List Char → Option Nat
  | [] => none
  | c :: rest =>
    if close.isPrefixOf (c :: rest) then some 0
    else if c = '\n' then none
    else (findCloseNoNL close rest).map (· + 1)

/-! ## The scanning engine for Go's regexp replacements

A matcher inspects the suffix of the text starting at the current position
and either matches (returning the length of the match and a payload -- the
replacement text for `ReplaceAllString`, the capture for submatch queries)
or fails, in which case the scan advances one character.  This is exactly
how Go's `ReplaceAllString` / `FindAllStringSubmatch` traverse the subject
for the concrete patterns of src/main.go (all of which match at least one
character, and none of which ever re-scans replaced output). -/

abbrev Matcher := List Char → Option (Nat × List Char)

/-- All patterns in src/main.go begin with a literal `<` except the two
heading finders; `ltMatcher body` runs `body` on the text after a leading
`<` and accounts for that character in the match length. -/
def ltMatcher (body : List Char → Option (Nat × List Char)) : Matcher :=
  fun s =>
    match s with
    | [] => none
    | c :: rest =>
      if c = '<' then (body rest).map (fun p => (p.1 + 1, p.2)) else none

/-- `regexp.ReplaceAllString`: scan left to right, emit the payload for each
match and continue after it; unmatched characters are copied.  `fuel` only
needs to be at least the length of the text (each step consumes a character). -/
def scanReplace (m : Matcher) : Nat → List Char → List Char
  | 0, s => s
  | _ + 1, [] => []
  | fuel + 1, c :: rest =>
    match m (c :: rest) with
    | some (len, rep) => rep ++ scanReplace m fuel ((c :: rest).drop len)
    | none => c :: scanReplace m fuel rest

/-- `regexp.FindAllStringSubmatch (·) (-1)`, keeping the capture payloads. -/
def scanCollect (m : Matcher) : Nat → List Char → List (List Char)
  | 0, _ => []
  | _ + 1, [] => []
  | fuel + 1, c :: rest =>
    match m (c :: rest) with
    | some (len, cap) => cap :: scanCollect m fuel ((c :: rest).drop len)
    | none => scanCollect m fuel rest

/-- `regexp.FindStringSubmatch`: the capture of the leftmost match. -/
def scanFind (m : Matcher) : List Char → Option (List Char)
  | [] => none
  | c :: rest =>
    match m (c :: rest) with
    | some (_, cap) => some cap
    | none => scanFind m rest

/-- Matcher for a literal (nonempty) pattern, with a fixed replacement:
the engine of `strings.ReplaceAll`. -/
def literalRep (pat rep : List Char) : Matcher := fun s =>
  if pat ≠ [] && pat.isPrefixOf s then some (pat.length, rep) else none

/-- `strings.ReplaceAll s pat rep` for a nonempty `pat`. -/
def replaceAllList (s pat rep : List Char) : List Char :=
  scanReplace (literalRep pat rep) s.length s

/-! ## Path Normalizer (src/main.go `normalizeFilePath`, lines 340-350) -/

/-- `normalizeFilePath`: collapse `/docs/` segments, strip a leading
`docs/`, strip the `.md` extension, strip a trailing `/index`. -/
def normalizeFilePath (file : String) : String :=
  ⟨trimSuffixList
    (trimSuffixList
      (trimPrefixList (replaceAllList file.data "/docs/".data "/".data)
        "docs/".data)
      ".md".data)
    "/index".data⟩

/-! ## Content Normalizer matchers (src/main.go regexps, lines 503-516)

Each Go regexp of the pipeline is embedded as a matcher on the text after
the leading `<` (see `ltMatcher`).  Lengths returned by a body count the
characters after the `<`. -/

/-- Body of `<tag[^>]*>(.*?)</tag>` (the `h1Re`/`h2Re`/`h3Re` patterns):
the greedy `[^>]*` deterministically runs to the first `>`, and the lazy
`(.*?)` (no `s` flag: `.` excludes newlines) stops at the earliest closing
tag.  Payload: the capture. -/
def headingBody (tag : List Char) (rest : List Char) : Option (Nat × List Char) :=
  if tag.isPrefixOf rest then
    let after := rest.drop tag.length
    let attrs := after.takeWhile (fun c => c ≠ '>')
    match after.drop attrs.length with
    | gt :: body =>
      if gt = '>' then
        match findCloseNoNL ('<' :: '/' :: (tag ++ ['>'])) body with
        | some i => some (tag.length + attrs.length + 1 + i + (tag.length + 3), body.take i)
        | none => none
      else none
    | [] => none
  else none

/-- Body of `<open>(.*?)</close>` with a literal opening tag
(the `kbdRe`/`supRe`/`strongRe` patterns).  Payload: the capture. -/
def inlineBody (openRest close : List Char) (rest : List Char) : Option (Nat × List Char) :=
  if openRest.isPrefixOf rest then
    let body := rest.drop openRest.length
    match findCloseNoNL close body with
    | some i => some (openRest.length + i + close.length, body.take i)
    | none => none
  else none

/-- Core of `</?name[^>]*>` after the optional `/` has been accounted for. -/
def simpleTagCore (name : List Char) (slashLen : Nat) (rest : List Char) :
    Option (Nat × List Char) :=
  if name.isPrefixOf rest then
    let after := rest.drop name.length
    let attrs := after.takeWhile (fun c => c ≠ '>')
    match after.drop attrs.length with
    | gt :: _ => if gt = '>' then some (slashLen + name.length + attrs.length + 1, []) else none
    | [] => none
  else none

/-- Body of `</?name[^>]*>` (the `spanRe`/`divRe` patterns; their
replacements keep nothing, so the payload is empty). -/
def simpleTagBody (name : List Char) (rest : List Char) : Option (Nat × List Char) :=
  match rest with
  | c :: r => if c = '/' then simpleTagCore name 1 r else simpleTagCore name 0 (c :: r)
  | [] => simpleTagCore name 0 []

/-- Body of `<br\s*/?>` (the `brRe` pattern); payload: a newline. -/
def brBody (rest : List Char) : Option (Nat × List Char) :=
  if ('b' :: ['r']).isPrefixOf rest then
    let after := rest.drop 2
    let ws := after.takeWhile isRegexSpace
    match after.drop ws.length with
    | c :: r2 =>
      if c = '/' then
        match r2 with
        | c2 :: _ => if c2 = '>' then some (2 + ws.length + 2, ['\n']) else none
        | [] => none
      else if c = '>' then some (2 + ws.length + 1, ['\n']) else none
    | [] => none
  else none

/-- Body of `<[^>]+>` (the `htmlTagRe` pattern); strips the tag. -/
def htmlTagBody (rest : List Char) : Option (Nat × List Char) :=
  let inner := rest.takeWhile (fun c => c ≠ '>')
  if inner.length = 0 then none
  else
    match rest.drop inner.length with
    | gt :: _ => if gt = '>' then some (inner.length + 1, []) else none
    | [] => none

/-- `display:` followed by `\s*` and `none`, starting at this position.
The greedy `\s*` deterministically skips the whitespace run, since `n` is
not a whitespace character. -/
def displayNoneAt (s : List Char) : Bool :=
  "display:".data.isPrefixOf s &&
    "none".data.isPrefixOf ((s.drop 8).dropWhile isRegexSpace)

/-- `[^>]*display:\s*none[^>]*` restricted to the attribute run: whether
`display:\s*none` occurs anywhere in it. -/
def hasDisplayNone : List Char → Bool
  | [] => false
  | c :: rest => displayNoneAt (c :: rest) || hasDisplayNone rest

/-- Body of `(?s)<div[^>]*display:\s*none[^>]*>(.*?)</div>\s*`
(the `hiddenDivRe` pattern).  The whole `[^>]*...[^>]*` group must fit
before the first `>` after `<div`; with the `s` flag the lazy capture runs
to the earliest `</div>`; the trailing greedy `\s*` swallows following
whitespace.  Payload: the capture (the hidden block's inner text). -/
def hiddenDivBody (rest : List Char) : Option (Nat × List Char) :=
  if "div".data.isPrefixOf rest then
    let after := rest.drop 3
    let attrs := after.takeWhile (fun c => c ≠ '>')
    if hasDisplayNone attrs then
      match after.drop attrs.length with
      | gt :: body =>
        if gt = '>' then
          match findClose "</div>".data body with
          | some i =>
            let ws := (body.drop (i + 6)).takeWhile isRegexSpace
            some (3 + attrs.length + 1 + i + 6 + ws.length, body.take i)
          | none => none
        else none
      | [] => none
    else none
  else none

/-- `hiddenDivRe` with the capture as payload (for keyword collection). -/
def hiddenDivCap : Matcher := ltMatcher hiddenDivBody

/-- `hiddenDivRe` with an empty payload (for `ReplaceAllString (·) ""`). -/
def hiddenDivRemove : Matcher :=
  ltMatcher (fun r => (hiddenDivBody r).map (fun p => (p.1, [])))

/-- `hNRe.ReplaceAllString (·) ("#..# $1")`: heading matcher whose payload
is the markdown marker followed by the capture. -/
def headingRep (tag marker : List Char) : Matcher :=
  ltMatcher (fun r => (headingBody tag r).map (fun p => (p.1, marker ++ p.2)))

/-- Inline matcher whose payload wraps the capture (kbd/sup/strong). -/
def inlineRep (openRest close pre post : List Char) : Matcher :=
  ltMatcher (fun r => (inlineBody openRest close r).map (fun p => (p.1, pre ++ p.2 ++ post)))

/-! ## The markdown-heading finder (`mdH1Re`, pattern `(?m)^#\s+(.+)$`) -/

/-- Match of `#\s+(.+)$` at a line start.  The greedy `\s+` prefers the
longest whitespace run; `.` excludes newlines, so `(.+)$` then captures up
to the next newline or the end.  When no non-whitespace character follows
the run, the engine backtracks `\s+` to the latest whitespace character of
the run that is not itself a newline (everything after it is newlines, so
the capture is that single character). -/
def mdH1At : List Char → Option (List Char)
  | c :: rest =>
    if c = '#' then
      let w := rest.takeWhile isRegexSpace
      if w.length = 0 then none
      else
        match rest.drop w.length with
        | c2 :: r2 => some ((c2 :: r2).takeWhile (fun x => x ≠ '\n'))
        | [] =>
          match (w.drop 1).reverse.find? (fun x => x ≠ '\n') with
          | some c3 => some [c3]
          | none => none
    else none
  | [] => none

/-- `mdH1Re.FindStringSubmatch`: try each line start, leftmost first.
`fuel` at least `length + 1` covers the whole scan. -/
def findMdH1 : Nat → List Char → Option (List Char)
  | 0, _ => none
  | fuel + 1, s =>
    match mdH1At s with
    | some cap => some cap
    | none =>
      match s.dropWhile (fun c => c ≠ '\n') with
      | [] => none
      | _ :: rest => findMdH1 fuel rest

/-! ## Content Normalizer (src/main.go `extractTitleAndClean`, lines 440-501) -/

/-- Strip a leading YAML front-matter block: `---` prefix, cut after the
first `\n---` plus one more character, then trim leading newlines (the Go
code at lines 444-448). -/
def stripFrontMatter (s : List Char) : List Char :=
  if "---".data.isPrefixOf s then
    match indexOfSub "\n---".data (s.drop 3) with
    | some e => ((s.drop 3).drop (e + 4)).dropWhile (fun c => c = '\n')
    | none => s
  else s

/-- Keyword captures: `hiddenDivRe.FindAllStringSubmatch (s) (-1)`. -/
def hiddenCaptures (s : List Char) : List (List Char) :=
  scanCollect hiddenDivCap s.length s

/-- The keywords string: trimmed captures, empties dropped, joined by a
single space (the loop at lines 461-472). -/
def keywordsOf (s : List Char) : List Char :=
  joinWith " ".data
    ((hiddenCaptures s).filterMap (fun m =>
      let kw := trimSpace m
      if kw = [] then none else some kw))

/-- `hiddenDivRe.ReplaceAllString (s) ""` (line 475). -/
def removeHiddenDivs (s : List Char) : List Char :=
  scanReplace hiddenDivRemove s.length s

/-- `h1Re.ReplaceAllString (s) "# $1"` (line 478). -/
def applyH1 (s : List Char) : List Char :=
  scanReplace (headingRep "h1".data "# ".data) s.length s

/-- `h2Re.ReplaceAllString (s) "## $1"` (line 479). -/
def applyH2 (s : List Char) : List Char :=
  scanReplace (headingRep "h2".data "## ".data) s.length s

/-- `h3Re.ReplaceAllString (s) "### $1"` (line 480). -/
def applyH3 (s : List Char) : List Char :=
  scanReplace (headingRep "h3".data "### ".data) s.length s

/-- `spanRe.ReplaceAllString (s) "$1"` (line 483; the pattern has no
capture group, so `$1` expands to nothing and the tags are dropped). -/
def applySpan (s : List Char) : List Char :=
  scanReplace (ltMatcher (simpleTagBody "span".data)) s.length s

/-- `brRe.ReplaceAllString (s) "\n"` (line 486). -/
def applyBr (s : List Char) : List Char :=
  scanReplace (ltMatcher brBody) s.length s

/-- `kbdRe.ReplaceAllString (s) ("` `$1` `")` (line 489). -/
def applyKbd (s : List Char) : List Char :=
  scanReplace (inlineRep "kbd>".data "</kbd>".data "`".data "`".data) s.length s

/-- `supRe.ReplaceAllString (s) "$1"` (line 492). -/
def applySup (s : List Char) : List Char :=
  scanReplace (inlineRep "sup>".data "</sup>".data [] []) s.length s

/-- `strongRe.ReplaceAllString (s) "**$1**"` (line 495). -/
def applyStrong (s : List Char) : List Char :=
  scanReplace (inlineRep "strong>".data "</strong>".data "**".data "**".data) s.length s

/-- `divRe.ReplaceAllString (s) ""` (line 498). -/
def applyDiv (s : List Char) : List Char :=
  scanReplace (ltMatcher (simpleTagBody "div".data)) s.length s

/-- Steps 5-11 of the pipeline (lines 477-498): h1-h3 to markdown
headings, span unwrap, br to newline, kbd to backtick code, sup unwrap,
strong to bold, residual div stripping -- in source order. -/
def steps5to11 (s : List Char) : List Char :=
  applyDiv (applyStrong (applySup (applyKbd (applyBr (applySpan (applyH3 (applyH2 (applyH1 s))))))))

/-- `htmlTagRe.ReplaceAllString (·) ""` (used on the title, line 457). -/
def stripTags (s : List Char) : List Char :=
  scanReplace (ltMatcher htmlTagBody) s.length s

/-- The extracted title (lines 451-458): first markdown h1, else first
HTML h1 with residual tags stripped after trimming, else empty. -/
def titleOf (s : List Char) : List Char :=
  match findMdH1 (s.length + 1) s with
  | some cap => trimSpace cap
  | none =>
    match scanFind (ltMatcher (headingBody "h1".data)) s with
    | some cap => stripTags (trimSpace cap)
    | none => []

/-- `extractTitleAndClean`: (title, keywords, cleaned content).  Keywords
are collected from the front-matter-stripped text before the hidden blocks
are removed; the body then runs through steps 5-11. -/
def extractTitleAndClean (raw : List Char) : List Char × List Char × List Char :=
  (titleOf (stripFrontMatter raw), keywordsOf (stripFrontMatter raw),
   steps5to11 (removeHiddenDivs (stripFrontMatter raw)))

/-! ## Data model of the Navigation Tree Walker (src/main.go lines 24-335)

A `yaml.Node` as consumed by `walkNavNode` is a scalar, a mapping (whose
`Content` alternates scalar keys and value nodes -- embedded as a list of
pairs) or a sequence.  `parseMkdocs` (file read + YAML decode) and
`os.ReadFile` are an environment of partial functions: the claims
quantify over their outcomes, and YAML decoding itself is out of scope. -/

inductive NavNode where
  | scalar (value : String)
  | mapping (pairs : List (String × NavNode))
  | sequence (children : List NavNode)

structure MkdocsConfig where
  siteName : String
  docsDir : String
  nav : List NavNode

structure Env where
  readFile : String → Option String
  configs : String → Option MkdocsConfig

/-- A catalog entry (the `docEntry` struct, lines 205-212). -/
structure docEntry where
  path : String
  file : String
  title : String
  keywords : String
  content : String
  exclude : Bool
deriving DecidableEq

/-- `filepath.Join` for the clean relative components this program joins
(no `.`/`..` segments, no trailing separators). -/
def pathJoin (a b : String) : String := a ++ "/" ++ b

/-- `filepath.Rel root p` for the prefixed paths this program produces:
strip `root ++ "/"`. -/
def relPath (root p : String) : String :=
  ⟨trimPrefixList p.data (root ++ "/").data⟩

/-- `filepath.Dir`: everything before the last separator (`.` if none). -/
def dirPath (p : String) : String :=
  match p.data.reverse.dropWhile (fun c => c ≠ '/') with
  | [] => "."
  | _ :: rest => ⟨rest.reverse⟩

/-- `addDoc` (lines 305-335): skip non-`.md` references silently, skip
unreadable files (with a warning), otherwise normalize the content and
emit one entry whose path joins the breadcrumb (falling back to the raw
file reference when the breadcrumb is empty) and whose title falls back
to the last breadcrumb segment. -/
def addDoc (env : Env) (mdPath docsDir repoRoot : String) (breadcrumb : List String) :
    List docEntry :=
  if ".md".data.isSuffixOf mdPath.data then
    match env.readFile (pathJoin docsDir mdPath) with
    | none => []
    | some raw =>
      let tkc := extractTitleAndClean raw.data
      let relFile := relPath repoRoot (pathJoin docsDir mdPath)
      let navPath0 := joinStrings " / " breadcrumb
      let navPath := if navPath0 = "" then mdPath else navPath0
      let title0 : String := ⟨tkc.1⟩
      let title := if title0 = "" ∧ breadcrumb ≠ [] then breadcrumb.getLastD "" else title0
      [⟨navPath, relFile, title, ⟨tkc.2.1⟩, ⟨tkc.2.2⟩, false⟩]
  else []

/-- The string handed to `handleInclude`: `!include ` stripped, trimmed. -/
def includeTarget (value : String) : String :=
  ⟨trimSpace (trimPrefixList value.data "!include ".data)⟩

mutual

/-- `walkNavNode` (lines 236-275).  `fuel` bounds the nesting depth of
`!include` resolution only (the Go code would not terminate on a cyclic
include; the spec calls the config tree acyclic by construction). -/
def walkNavNode (env : Env) (fuel : Nat) (node : NavNode)
    (docsDir repoRoot : String) (breadcrumb : List String) : List docEntry :=
  match node with
  | .scalar v => addDoc env v docsDir repoRoot breadcrumb
  | .mapping pairs => walkPairs env fuel pairs docsDir repoRoot breadcrumb
  | .sequence children => walkList env fuel children docsDir repoRoot breadcrumb
termination_by (fuel, sizeOf node)

/-- The key/value loop of the `MappingNode` case (lines 244-268). -/
def walkPairs (env : Env) (fuel : Nat) (pairs : List (String × NavNode))
    (docsDir repoRoot : String) (breadcrumb : List String) : List docEntry :=
  match pairs with
  | [] => []
  | (title, val) :: rest =>
    walkValue env fuel title val docsDir repoRoot breadcrumb ++
    walkPairs env fuel rest docsDir repoRoot breadcrumb
termination_by (fuel, sizeOf pairs)

/-- The body of one key/value iteration (lines 247-267): an `!include `
scalar goes to `handleInclude`; any other scalar is a titled leaf; a
sequence or mapping value is a titled section, walked with the title
appended to the breadcrumb. -/
def walkValue (env : Env) (fuel : Nat) (title : String) (val : NavNode)
    (docsDir repoRoot : String) (breadcrumb : List String) : List docEntry :=
  match val with
  | .scalar value =>
    cond ("!include ".data.isPrefixOf value.data)
      (handleInclude env fuel value title repoRoot breadcrumb)
      (addDoc env value docsDir repoRoot (breadcrumb ++ [title]))
  | .sequence children =>
    walkList env fuel children docsDir repoRoot (breadcrumb ++ [title])
  | .mapping ps =>
    walkPairs env fuel ps docsDir repoRoot (breadcrumb ++ [title])
termination_by (fuel, sizeOf val)

/-- `walkNav` (lines 230-234): walk each node with the same breadcrumb. -/
def walkList (env : Env) (fuel : Nat) (nodes : List NavNode)
    (docsDir repoRoot : String) (breadcrumb : List String) : List docEntry :=
  match nodes with
  | [] => []
  | n :: rest =>
    walkNavNode env fuel n docsDir repoRoot breadcrumb ++
    walkList env fuel rest docsDir repoRoot breadcrumb
termination_by (fuel, sizeOf nodes)

/-- `handleInclude` (lines 277-303): load the included config (skip the
branch on failure), default its docs dir, recurse with the including
section's title appended to the breadcrumb and the sub-site's docs dir. -/
def handleInclude (env : Env) (fuel : Nat) (value title repoRoot : String)
    (breadcrumb : List String) : List docEntry :=
  match fuel with
  | 0 => []
  | fuel + 1 =>
    let absPath := pathJoin repoRoot (includeTarget value)
    match env.configs absPath with
    | none => []
    | some cfg =>
      let subsiteDir := dirPath absPath
      let docsDir := if cfg.docsDir = "" then "docs" else cfg.docsDir
      walkList env fuel cfg.nav (pathJoin subsiteDir docsDir) repoRoot
        (breadcrumb ++ [title])
termination_by (fuel, 0)

end

/-- The top of `main` (lines 57-71): a failed top-level config load aborts
the run (`log.Fatalf`, so no catalog at all); otherwise walk the nav with
the defaulted docs dir and an empty breadcrumb. -/
def runCatalog (env : Env) (fuel : Nat) (tmpDir : String) : Option (List docEntry) :=
  match env.configs (pathJoin tmpDir "mkdocs.yml") with
  | none => none
  | some cfg =>
    let docsDir := if cfg.docsDir = "" then "docs" else cfg.docsDir
    some (walkList env fuel cfg.nav (pathJoin tmpDir docsDir) tmpDir [])

/-! ### Unfolding equations of the walker

The walker is defined by well-founded recursion, so its defining equations
are recorded once here (they drive the concrete evaluations below). -/

theorem walkNavNode_scalar (env fuel v docsDir repoRoot breadcrumb) :
    walkNavNode env fuel (.scalar v) docsDir repoRoot breadcrumb =
      addDoc env v docsDir repoRoot breadcrumb := by
  simp [walkNavNode]

theorem walkNavNode_mapping (env fuel pairs docsDir repoRoot breadcrumb) :
    walkNavNode env fuel (.mapping pairs) docsDir repoRoot breadcrumb =
      walkPairs env fuel pairs docsDir repoRoot breadcrumb := by
  simp [walkNavNode]

theorem walkNavNode_sequence (env fuel children docsDir repoRoot breadcrumb) :
    walkNavNode env fuel (.sequence children) docsDir repoRoot breadcrumb =
      walkList env fuel children docsDir repoRoot breadcrumb := by
  simp [walkNavNode]

theorem walkList_nil (env fuel docsDir repoRoot breadcrumb) :
    walkList env fuel [] docsDir repoRoot breadcrumb = [] := by
  simp [walkList]

theorem walkList_cons (env fuel n rest docsDir repoRoot breadcrumb) :
    walkList env fuel (n :: rest) docsDir repoRoot breadcrumb =
      walkNavNode env fuel n docsDir repoRoot breadcrumb ++
      walkList env fuel rest docsDir repoRoot breadcrumb := by
  simp [walkList]

theorem walkPairs_nil (env fuel docsDir repoRoot breadcrumb) :
    walkPairs env fuel [] docsDir repoRoot breadcrumb = [] := by
  simp [walkPairs]

theorem walkPairs_cons (env fuel title val rest docsDir repoRoot breadcrumb) :
    walkPairs env fuel ((title, val) :: rest) docsDir repoRoot breadcrumb =
      walkValue env fuel title val docsDir repoRoot breadcrumb ++
      walkPairs env fuel rest docsDir repoRoot breadcrumb := by
  simp [walkPairs]

theorem walkValue_scalar (env fuel title value docsDir repoRoot breadcrumb) :
    walkValue env fuel title (.scalar value) docsDir repoRoot breadcrumb =
      cond ("!include ".data.isPrefixOf value.data)
        (handleInclude env fuel value title repoRoot breadcrumb)
        (addDoc env value docsDir repoRoot (breadcrumb ++ [title])) := by
  simp [walkValue]

theorem walkValue_sequence (env fuel title children docsDir repoRoot breadcrumb) :
    walkValue env fuel title (.sequence children) docsDir repoRoot breadcrumb =
      walkList env fuel children docsDir repoRoot (breadcrumb ++ [title]) := by
  simp [walkValue]

theorem walkValue_mapping (env fuel title ps docsDir repoRoot breadcrumb) :
    walkValue env fuel title (.mapping ps) docsDir repoRoot breadcrumb =
      walkPairs env fuel ps docsDir repoRoot (breadcrumb ++ [title]) := by
  simp [walkValue]

theorem handleInclude_zero (env value title repoRoot breadcrumb) :
    handleInclude env 0 value title repoRoot breadcrumb = [] := by
  simp [handleInclude]

theorem handleInclude_succ (env fuel value title repoRoot breadcrumb) :
    handleInclude env (fuel + 1) value title repoRoot breadcrumb =
      (match env.configs (pathJoin repoRoot (includeTarget value)) with
       | none => []
       | some cfg =>
         walkList env fuel cfg.nav
           (pathJoin (dirPath (pathJoin repoRoot (includeTarget value)))
             (if cfg.docsDir = "" then "docs" else cfg.docsDir))
           repoRoot (breadcrumb ++ [title])) := by
  simp [handleInclude]

/-! ## The catalog store (the SQLite `docs` table, `path` PRIMARY KEY)

`INSERT OR IGNORE` with a primary-key column: the row is appended unless
one with the same key is already present (main.go lines 114-127 for the
walker entries, lines 155-171 for recovered ones, lines 185-194 for the
symbol associations, which key on `symbol`). -/

def insertOrIgnore {α : Type} (key : α → String) (acc : List α) (x : α) : List α :=
  if acc.any (fun y => key y == key x) then acc else acc ++ [x]

/-- The `docs` table after the insertion loop of main.go lines 119-127. -/
def buildCatalog (docs : List docEntry) : List docEntry :=
  docs.foldl (insertOrIgnore docEntry.path) []

/-! ## Symbol Matcher (src/main.go lines 352-397)

The Go `fileIndex` is a `map[string]string`; it is embedded as an
association list with pairwise-distinct keys.  Plain lookups are
order-independent on such a list; the fallback scan of `matchHelpURL`
ranges over the map, and the list order stands for one admissible
(unspecified) iteration order of that range. -/

structure helpURLEntry where
  symbol : String
  url : String
deriving DecidableEq

/-- Map lookup: the value of the (unique) pair with the given key. -/
def lookupIdx (idx : List (String × String)) (k : String) : Option String :=
  (idx.find? (fun kv => kv.1 == k)).map (fun kv => kv.2)

/-- Map assignment `idx[k] = v`: overwrite the existing pair or append. -/
def mapInsert (idx : List (String × String)) (k v : String) : List (String × String) :=
  if idx.any (fun kv => kv.1 == k) then
    idx.map (fun kv => if kv.1 == k then (k, v) else kv)
  else idx ++ [(k, v)]

/-- The suffix test of the fallback tier (line 391):
`strings.HasSuffix filePath ("/" ++ url) || filePath == url`. -/
def suffixQualifies (filePath url : String) : Bool :=
  ("/" ++ url).data.isSuffixOf filePath.data || filePath == url

/-- `matchHelpURL` (lines 378-397): exact lookup, then lookup with
`/index` appended, then the first qualifying entry of the scanned order. -/
def matchHelpURL (url : String) (idx : List (String × String)) : Option String :=
  match lookupIdx idx url with
  | some navPath => some navPath
  | none =>
    match lookupIdx idx (url ++ "/index") with
    | some navPath => some navPath
    | none => (idx.find? (fun kv => suffixQualifies kv.1 url)).map (fun kv => kv.2)

/-- The matching pass (lines 189-194): one `INSERT OR IGNORE` keyed on
`symbol` per matched entry. -/
def buildAssociations (entries : List helpURLEntry) (idx : List (String × String)) :
    List (String × String) :=
  entries.foldl
    (fun acc e =>
      match matchHelpURL e.url idx with
      | some navPath => insertOrIgnore Prod.fst acc (e.symbol, navPath)
      | none => acc) []

/-! ## Disambiguation Resolver (src/main.go lines 399-436, 518-533) -/

/-- `buildNavPath` (lines 520-533): title-case every `/`-segment by
capitalizing each hyphen-separated word (Go upcases the first byte;
segments are joined by " / ", words by " "). -/
def buildNavPath (url : String) : String :=
  ⟨joinWith " / ".data
    ((splitOnChar '/' url.data).map (fun seg =>
      joinWith " ".data
        ((splitOnChar '-' seg).map (fun w =>
          match w with
          | [] => []
          | c :: r => c.toUpper :: r))))⟩

/-- The last `/`-segment of a URL (lines 429-430). -/
def lastSegment (url : String) : String :=
  ⟨(splitOnChar '/' url.data).getLastD []⟩

/-- One candidate of `findHelpFile` (lines 418-433): read the file, build
the synthetic breadcrumb and the title fallback. -/
def tryCandidate (env : Env) (url repoRoot cand : String) :
    Option (String × String × String × String × String) :=
  match env.readFile cand with
  | none => none
  | some raw =>
    let relFile := relPath repoRoot cand
    let navPath := buildNavPath url
    let tkc := extractTitleAndClean raw.data
    let title : String := if (⟨tkc.1⟩ : String) = "" then lastSegment url else ⟨tkc.1⟩
    some (navPath, relFile, title, ⟨tkc.2.1⟩, ⟨tkc.2.2⟩)

/-- `findHelpFile` (lines 402-436): a URL with no `/` is rejected outright;
otherwise the first segment is the sub-site, and the file is sought at
`<subsite>/docs/<rest>.md`, then `<subsite>/docs/<rest>/index.md`. -/
def findHelpFile (env : Env) (url repoRoot : String) :
    Option (String × String × String × String × String) :=
  match splitFirst '/' url.data with
  | none => none
  | some (subsitePart, restPart) =>
    let subsite : String := ⟨subsitePart⟩
    let rest : String := ⟨restPart⟩
    let cand1 := pathJoin (pathJoin (pathJoin repoRoot subsite) "docs") (rest ++ ".md")
    let cand2 := pathJoin (pathJoin (pathJoin (pathJoin repoRoot subsite) "docs") rest) "index.md"
    match tryCandidate env url repoRoot cand1 with
    | some r => some r
    | none => tryCandidate env url repoRoot cand2

/-- One iteration of the recovery pass (main.go lines 159-171), acting on
the pair (docs table, normalized-path index): an already-matchable or
unrecoverable reference leaves the state unchanged; otherwise the found
document is inserted with `exclude = true` and the index maps its
normalized file path to the synthetic nav path. -/
def recoveryStep (env : Env) (repoRoot : String)
    (st : List docEntry × List (String × String)) (e : helpURLEntry) :
    List docEntry × List (String × String) :=
  match matchHelpURL e.url st.2 with
  | some _ => st
  | none =>
    match findHelpFile env e.url repoRoot with
    | none => st
    | some (navPath, filePath, title, keywords, content) =>
      (insertOrIgnore docEntry.path st.1 ⟨navPath, filePath, title, keywords, content, true⟩,
       mapInsert st.2 (normalizeFilePath filePath) navPath)

/-! ## Lemmas about the insert-or-ignore store -/

theorem nodup_insertOrIgnore {α : Type} (key : α → String) (acc : List α) (x : α)
    (h : (acc.map key).Nodup) : ((insertOrIgnore key acc x).map key).Nodup := by
  by_cases hmem : acc.any (fun y => key y == key x)
  · rwa [insertOrIgnore, if_pos hmem]
  · rw [insertOrIgnore, if_neg hmem]
    rw [List.map_append, List.map_singleton, List.nodup_append]
    refine ⟨h, List.nodup_singleton _, ?_⟩
    intro z hz
    simp only [List.mem_singleton]
    intro hk
    apply hmem
    rcases List.mem_map.mp hz with ⟨y, hy, hky⟩
    exact List.any_eq_true.mpr ⟨y, hy, by simp [hky, hk]⟩

theorem foldl_insertOrIgnore_find? {α : Type} (key : α → String) (docs : List α)
    (acc : List α) (p : String) :
    (docs.foldl (insertOrIgnore key) acc).find? (fun e => key e == p) =
      (acc ++ docs).find? (fun e => key e == p) := by
  induction docs generalizing acc with
  | nil => simp
  | cons d rest ih =>
    rw [List.foldl_cons, ih]
    by_cases h : acc.any (fun y => key y == key d)
    · rw [insertOrIgnore, if_pos h]
      rw [List.find?_append, List.find?_append]
      cases hacc : acc.find? (fun e => key e == p) with
      | some x => simp
      | none =>
        simp only [Option.none_or]
        rcases List.any_eq_true.mp h with ⟨y, hy, hkey⟩
        by_cases hdp : key d == p
        · exfalso
          have hyp : (key y == p) = true := by
            have h1 : key y = key d := by simpa using hkey
            have h2 : key d = p := by simpa using hdp
            simp [h1, h2]
          exact List.find?_eq_none.mp hacc y hy hyp
        · rw [List.find?_cons_of_neg _ (by simpa using hdp)]
    · rw [insertOrIgnore, if_neg h]
      simp [List.append_assoc]

theorem nodup_foldl_insertOrIgnore {α : Type} (key : α → String) (docs : List α)
    (acc : List α) (h : (acc.map key).Nodup) :
    ((docs.foldl (insertOrIgnore key) acc).map key).Nodup := by
  induction docs generalizing acc with
  | nil => simpa using h
  | cons d rest ih =>
    rw [List.foldl_cons]
    exact ih _ (nodup_insertOrIgnore key acc d h)

theorem foldl_insertOrIgnore_sublist {α : Type} (key : α → String) (docs : List α)
    (acc : List α) : (docs.foldl (insertOrIgnore key) acc).Sublist (acc ++ docs) := by
  induction docs generalizing acc with
  | nil => simp
  | cons d rest ih =>
    rw [List.foldl_cons]
    refine (ih (insertOrIgnore key acc d)).trans ?_
    by_cases hmem : acc.any (fun y => key y == key d)
    · rw [insertOrIgnore, if_pos hmem]
      exact List.Sublist.append_left (List.sublist_cons_self d rest) acc |>.trans (by simp)
    · rw [insertOrIgnore, if_neg hmem]
      simp [List.append_assoc]

theorem nodup_buildAssociations (entries : List helpURLEntry)
    (idx : List (String × String)) :
    ((buildAssociations entries idx).map Prod.fst).Nodup := by
  have aux : ∀ (es : List helpURLEntry) (acc : List (String × String)),
      (acc.map Prod.fst).Nodup →
      ((es.foldl
        (fun acc e =>
          match matchHelpURL e.url idx with
          | some navPath => insertOrIgnore Prod.fst acc (e.symbol, navPath)
          | none => acc) acc).map Prod.fst).Nodup := by
    intro es
    induction es with
    | nil => intro acc h; simpa using h
    | cons e rest ih =>
      intro acc h
      rw [List.foldl_cons]
      apply ih
      cases hm : matchHelpURL e.url idx with
      | some navPath => simpa [hm] using nodup_insertOrIgnore Prod.fst acc (e.symbol, navPath) h
      | none => simpa [hm] using h
  exact aux entries [] (by simp)

/-! ## Claims C2, C3, C6 -/

/-- C2, counterexample: the claim says `normalizeFilePath "docs/index.md" = ""`;
the code strips the leading `docs/` and the `.md` extension, leaving `"index"`,
and `TrimSuffix (·) "/index"` does not fire on a bare `"index"` (no slash), so
the result is `"index"`, not the empty string. -/
theorem C2_root_index_not_empty :
    normalizeFilePath "docs/index.md" = "index" ∧ normalizeFilePath "docs/index.md" ≠ "" := by
  decide

/-- C2 (amended): `normalizeFilePath` applies, in order: collapse interior
document-root segments, strip a leading document-root segment, strip the
extension, strip a trailing `/index` segment; it maps
`"site/docs/symbols/iota.md"` to `"site/symbols/iota"`, `"docs/index.md"` to
`"index"` (the trailing-index rule needs a preceding separator, so the root
index page keeps the bare segment `"index"`), and `"site/docs/foo/index.md"`
to `"site/foo"`. -/
theorem C2_path_normalization :
    normalizeFilePath "site/docs/symbols/iota.md" = "site/symbols/iota" ∧
    normalizeFilePath "docs/index.md" = "index" ∧
    normalizeFilePath "site/docs/foo/index.md" = "site/foo" := by
  decide

/-- C3: in the catalog table (`INSERT OR IGNORE` on the `path` primary key),
paths are pairwise distinct, every retained entry comes from the input
stream, and for every path the retained entry is the first entry of the
traversal with that path -- so a later colliding entry is silently dropped. -/
theorem C3_path_uniqueness_first_wins (docs : List docEntry) :
    ((buildCatalog docs).map docEntry.path).Nodup ∧
    (buildCatalog docs).Sublist docs ∧
    ∀ p, (buildCatalog docs).find? (fun e => e.path == p) =
      docs.find? (fun e => e.path == p) := by
  refine ⟨?_, ?_, ?_⟩
  · exact nodup_foldl_insertOrIgnore docEntry.path docs [] (by simp)
  · simpa using foldl_insertOrIgnore_sublist docEntry.path docs []
  · intro p
    simpa using foldl_insertOrIgnore_find? docEntry.path docs [] p

/-- C6: the three matching tiers fire in order (exact, `/index`-appended,
suffix scan), the first successful tier wins, an exhausted lookup yields no
association, the spec's two example references match at tier 1 and tier 3,
and the association table (`INSERT OR IGNORE` keyed on `symbol`) holds at
most one association per symbol. -/
theorem C6_three_tier_matching :
    matchHelpURL "lang/primitives/index-generator"
      [("lang/primitives/index-generator", "NAV")] = some "NAV" ∧
    matchHelpURL "primitives/index-generator"
      [("lang/primitives/index-generator", "NAV")] = some "NAV" ∧
    matchHelpURL "a/b" [("a/b/index", "N2")] = some "N2" ∧
    matchHelpURL "u" [("u", "T1"), ("u/index", "T2"), ("x/u", "T3")] = some "T1" ∧
    matchHelpURL "u" [("u/index", "T2"), ("x/u", "T3")] = some "T2" ∧
    matchHelpURL "u" [("x/u", "T3")] = some "T3" ∧
    matchHelpURL "zzz" [("lang/primitives/index-generator", "NAV")] = none ∧
    ∀ entries idx, ((buildAssociations entries idx).map Prod.fst).Nodup := by
  refine ⟨by decide, by decide, by decide, by decide, by decide, by decide, by decide, ?_⟩
  exact nodup_buildAssociations

/-! ## Claims C7 and C10 -/

theorem splitFirst_eq_none {sep : Char} {l : List Char} (h : sep ∉ l) :
    splitFirst sep l = none := by
  induction l with
  | nil => rfl
  | cons c rest ih =>
    have hc : c ≠ sep := fun hc => h (hc ▸ List.mem_cons_self c rest)
    rw [splitFirst, if_neg hc, ih (fun hm => h (List.mem_cons_of_mem c hm))]
    rfl

theorem find?_perm_of_unique {α : Type} (p : α → Bool) {l1 l2 : List α} (hp : l1.Perm l2)
    (huniq : ∀ a ∈ l1, ∀ b ∈ l1, p a → p b → a = b) :
    l1.find? p = l2.find? p := by
  cases h1 : l1.find? p with
  | none =>
    cases h2 : l2.find? p with
    | none => rfl
    | some x =>
      exfalso
      have hx : p x := List.find?_some h2
      have hxm : x ∈ l1 := hp.symm.subset (List.mem_of_find?_eq_some h2)
      exact List.find?_eq_none.mp h1 x hxm hx
  | some x =>
    have hx : p x := List.find?_some h1
    have hxm : x ∈ l1 := List.mem_of_find?_eq_some h1
    cases h2 : l2.find? p with
    | none =>
      exfalso
      exact List.find?_eq_none.mp h2 x (hp.subset hxm) hx
    | some y =>
      have hy : p y := List.find?_some h2
      have hym : y ∈ l1 := hp.symm.subset (List.mem_of_find?_eq_some h2)
      rw [huniq x hxm y hym hx hy]

theorem lookupIdx_perm {idx1 idx2 : List (String × String)} (hperm : idx1.Perm idx2)
    (hnd : (idx1.map Prod.fst).Nodup) (k : String) :
    lookupIdx idx1 k = lookupIdx idx2 k := by
  unfold lookupIdx
  congr 1
  apply find?_perm_of_unique _ hperm
  intro a ha b hb hpa hpb
  apply List.inj_on_of_nodup_map hnd ha hb
  have h1 : a.1 = k := by simpa using hpa
  have h2 : b.1 = k := by simpa using hpb
  rw [h1, h2]

/-- C7, counterexample: the suffix-scan tier has no tie-break at all.  The
two association lists below are the same map (same pairs, distinct keys) in
two iteration orders, yet the matcher returns `"P"` for one order and `"Q"`
for the other -- so no deterministic (in particular no lexicographic)
tie-break is applied, and two runs over the same index contents can differ. -/
theorem C7_no_tie_break :
    [("a/x", "P"), ("b/x", "Q")].Perm [("b/x", "Q"), ("a/x", "P")] ∧
    ([("a/x", "P"), ("b/x", "Q")].map (Prod.fst (α := String) (β := String))).Nodup ∧
    matchHelpURL "x" [("a/x", "P"), ("b/x", "Q")] = some "P" ∧
    matchHelpURL "x" [("b/x", "Q"), ("a/x", "P")] = some "Q" ∧
    some "P" ≠ some "Q" :=
  ⟨List.Perm.swap ("b/x", "Q") ("a/x", "P") [], by decide, by decide, by decide, by decide⟩

/-- C7 (amended): the code applies no tie-break in the suffix-scan tier; it
returns the first qualifying entry in the map's iteration order, so the
result of `matchHelpURL` is independent of that (unspecified) order only
when at most one indexed path qualifies; with several qualifying paths the
association may differ between two runs over the same index contents. -/
theorem C7_suffix_match_determinism (url : String) (idx1 idx2 : List (String × String))
    (hperm : idx1.Perm idx2)
    (hnd : (idx1.map Prod.fst).Nodup)
    (huniq : ∀ a ∈ idx1, ∀ b ∈ idx1,
      suffixQualifies a.1 url → suffixQualifies b.1 url → a = b) :
    matchHelpURL url idx1 = matchHelpURL url idx2 := by
  unfold matchHelpURL
  rw [lookupIdx_perm hperm hnd url, lookupIdx_perm hperm hnd (url ++ "/index")]
  cases lookupIdx idx2 url with
  | some nav => rfl
  | none =>
    cases lookupIdx idx2 (url ++ "/index") with
    | some nav => rfl
    | none =>
      rw [find?_perm_of_unique _ hperm huniq]

/-- Witness for C7: with a single qualifying entry the association is the
same in both iteration orders. -/
theorem C7_suffix_match_determinism_witness :
    matchHelpURL "x" [("a/x", "P"), ("b", "B")] = matchHelpURL "x" [("b", "B"), ("a/x", "P")] :=
  C7_suffix_match_determinism "x" _ _ (List.Perm.swap ("b", "B") ("a/x", "P") [])
    (by decide) (by decide)

/-- C10: a reference path with no `/` separator is rejected by
`findHelpFile` before any file access: the result is `none` for every
environment, even one in which a matching markdown file exists. -/
theorem C10_single_segment_rejected (env : Env) (url repoRoot : String)
    (h : '/' ∉ url.data) : findHelpFile env url repoRoot = none := by
  rw [findHelpFile, splitFirst_eq_none h]

/-- Witness for C10: the environment holds `docs/iota.md` under the tree
root, yet the single-segment reference `"iota"` is not recovered. -/
theorem C10_single_segment_rejected_witness :
    findHelpFile
      ⟨fun p => if p = "/r/docs/iota.md" then some "# Iota" else none, fun _ => none⟩
      "iota" "/r" = none :=
  C10_single_segment_rejected _ "iota" "/r" (by decide)

/-! ## Claim C4 -/

theorem scanReplace_ltMatcher_id (body : List Char → Option (Nat × List Char)) :
    ∀ (f : Nat) (s : List Char), (∀ c ∈ s, c ≠ '<') →
      scanReplace (ltMatcher body) f s = s := by
  intro f
  induction f with
  | zero => intro s _; rfl
  | succ f ih =>
    intro s h
    cases s with
    | nil => rfl
    | cons c rest =>
      rw [scanReplace]
      have hc : c ≠ '<' := h c (List.mem_cons_self c rest)
      rw [show ltMatcher body (c :: rest) = none from by rw [ltMatcher]; exact if_neg hc]
      rw [ih rest (fun x hx => h x (List.mem_cons_of_mem c hx))]

theorem steps5to11_id_of_no_lt (s : List Char) (h : ∀ c ∈ s, c ≠ '<') :
    steps5to11 s = s := by
  unfold steps5to11 applyDiv applyStrong applySup applyKbd applyBr applySpan
    applyH3 applyH2 applyH1
  simp only [headingRep, inlineRep, scanReplace_ltMatcher_id _ _ _ h]

/-- C4, counterexample: the conversion pipeline is not idempotent.  On
`"<h1><h1>x</h1></h1>"` the lazy heading capture swallows the inner opening
tag, one application yields `"# <h1>x</h1>"`, and a second application
converts the leftover heading again, giving `"# # x"`. -/
theorem C4_not_idempotent :
    steps5to11 (steps5to11 "<h1><h1>x</h1></h1>".data) ≠
      steps5to11 "<h1><h1>x</h1></h1>".data := by
  decide

/-- C4 (amended): all stages of steps 5-11 only fire on a literal `<`, so
on text containing no `<` -- in particular on already-clean output with no
leftover markup -- one application is the identity and re-running the
pipeline is a no-op; full idempotence on arbitrary documents fails (nested
elements regenerate matches, see the counterexample). -/
theorem C4_steps_idempotent_on_clean (s : List Char) (h : ∀ c ∈ s, c ≠ '<') :
    steps5to11 s = s ∧ steps5to11 (steps5to11 s) = steps5to11 s := by
  have h1 := steps5to11_id_of_no_lt s h
  exact ⟨h1, by rw [h1, h1]⟩

/-- Witness for C4 on a clean markdown document. -/
theorem C4_steps_idempotent_on_clean_witness :
    steps5to11 "# Title\nplain **text** and `code`".data = "# Title\nplain **text** and `code`".data ∧
    steps5to11 (steps5to11 "# Title\nplain **text** and `code`".data) =
      steps5to11 "# Title\nplain **text** and `code`".data :=
  C4_steps_idempotent_on_clean _ (by decide)

/-! ## Claim C5: keyword extraction precedes hidden-block removal

The general theorem below covers a document built from markup-free text
`pre`, `mid`, `post` (no `<` anywhere in them) around two hidden blocks
with inner texts `b1` and `b2`.  It shows the keywords are the trimmed
inner texts in document order joined by a single space, while the cleaned
body is the surrounding text with both blocks (and the whitespace that
follows each, consumed by the pattern's trailing `\s*`) removed. -/

theorem takeWhile_append_all (p : Char → Bool) (l1 l2 : List Char)
    (h : ∀ c ∈ l1, p c = true) :
    (l1 ++ l2).takeWhile p = l1 ++ l2.takeWhile p := by
  induction l1 with
  | nil => simp
  | cons a l1 ih =>
    rw [List.cons_append, List.takeWhile_cons, if_pos (h a (List.mem_cons_self a l1))]
    rw [ih (fun c hc => h c (List.mem_cons_of_mem a hc)), List.cons_append]

theorem takeWhile_cons_false (p : Char → Bool) (c : Char) (l : List Char)
    (hc : p c = false) : (c :: l).takeWhile p = [] := by
  rw [List.takeWhile_cons, if_neg (by simp [hc])]

theorem dropWhile_append_of_head_false (p : Char → Bool) (l1 : List Char) (c : Char)
    (l2 : List Char) (hc : p c = false) :
    (l1 ++ c :: l2).dropWhile p = l1.dropWhile p ++ c :: l2 := by
  induction l1 with
  | nil => simp [List.dropWhile_cons, hc]
  | cons a l1 ih =>
    by_cases ha : p a
    · rw [List.cons_append, List.dropWhile_cons, if_pos ha, ih, List.dropWhile_cons, if_pos ha]
    · rw [List.cons_append, List.dropWhile_cons, if_neg ha, List.dropWhile_cons, if_neg ha,
        List.cons_append]

theorem drop_takeWhile_length (p : Char → Bool) (l : List Char) :
    l.drop (l.takeWhile p).length = l.dropWhile p := by
  have h := List.takeWhile_append_dropWhile (p := p) (l := l)
  calc l.drop (l.takeWhile p).length
      = ((l.takeWhile p) ++ (l.dropWhile p)).drop (l.takeWhile p).length := by rw [h]
    _ = l.dropWhile p := List.drop_left _ _

theorem isPrefixOf_append_self (l t : List Char) : l.isPrefixOf (l ++ t) = true := by
  induction l with
  | nil => simp
  | cons c l ih => simp [ih]

theorem findClose_block (close block t : List Char) (hcl : close.head? = some '<')
    (hblock : ∀ c ∈ block, c ≠ '<') :
    findClose close (block ++ close ++ t) = some block.length := by
  induction block with
  | nil =>
    cases close with
    | nil => simp at hcl
    | cons a cl =>
      rw [List.nil_append, List.cons_append, findClose,
        if_pos (by rw [← List.cons_append]; exact isPrefixOf_append_self (a :: cl) t)]
      rfl
  | cons c block ih =>
    have hc : c ≠ '<' := hblock c (List.mem_cons_self c block)
    rw [List.cons_append, List.cons_append, findClose]
    rw [if_neg ?hne]
    case hne =>
      intro hpre
      cases close with
      | nil => simp at hcl
      | cons a cl =>
        have ha : a = '<' := by simpa using hcl
        have := (List.isPrefixOf_iff_prefix.mp hpre)
        rcases this with ⟨u, hu⟩
        have : a = c := by
          have := congrArg List.head? hu
          simpa using this
        exact hc (by rw [← this, ha])
    rw [ih (fun x hx => hblock x (List.mem_cons_of_mem c hx))]
    simp

theorem hiddenDivBody_at (attrs block t : List Char)
    (ha : ∀ c ∈ attrs, (decide (c ≠ '>')) = true)
    (hdn : hasDisplayNone attrs = true)
    (hblock : ∀ c ∈ block, c ≠ '<') :
    hiddenDivBody ("div".data ++ (attrs ++ '>' :: (block ++ "</div>".data ++ t))) =
      some (3 + attrs.length + 1 + block.length + 6 + (t.takeWhile isRegexSpace).length,
        block) := by
  have h0 : ("div".data).isPrefixOf
      ("div".data ++ (attrs ++ '>' :: (block ++ "</div>".data ++ t))) = true :=
    isPrefixOf_append_self _ _
  have h1 : ("div".data ++ (attrs ++ '>' :: (block ++ "</div>".data ++ t))).drop 3 =
      attrs ++ '>' :: (block ++ "</div>".data ++ t) :=
    List.drop_left "div".data _
  have h2 : List.takeWhile (fun c => decide (c ≠ '>'))
      (attrs ++ '>' :: (block ++ "</div>".data ++ t)) = attrs := by
    rw [takeWhile_append_all _ attrs _ ha, takeWhile_cons_false _ '>' _ (by simp),
      List.append_nil]
  have h3 : (attrs ++ '>' :: (block ++ "</div>".data ++ t)).drop attrs.length =
      '>' :: (block ++ "</div>".data ++ t) :=
    List.drop_left attrs _
  have h4 : findClose "</div>".data (block ++ "</div>".data ++ t) = some block.length :=
    findClose_block "</div>".data block t rfl hblock
  have h5 : (block ++ "</div>".data ++ t).take block.length = block := by
    rw [List.append_assoc]; exact List.take_left _ _
  have h6 : (block ++ "</div>".data ++ t).drop (block.length + 6) = t := by
    rw [show block.length + 6 = (block ++ "</div>".data).length from by simp]
    exact List.drop_left _ _
  simp only [hiddenDivBody, h0, if_true, h1, h2, h3, hdn, h4, h5, h6, reduceIte]

/-- The concrete hidden block used by the keyword claims. -/
def hiddenBlock (block : List Char) : List Char :=
  "<div style=\"display: none\">".data ++ block ++ "</div>".data

theorem drop_append_plus (l1 l2 : List Char) (n : Nat) :
    (l1 ++ l2).drop (l1.length + n) = l2.drop n := by
  induction l1 with
  | nil => simp
  | cons c l1 ih => simp [Nat.succ_add, ih]

theorem hiddenDivCap_at (block t : List Char) (hblock : ∀ c ∈ block, c ≠ '<') :
    hiddenDivCap (hiddenBlock block ++ t) =
      some (33 + block.length + (t.takeWhile isRegexSpace).length, block) := by
  have hshape : hiddenBlock block ++ t =
      '<' :: ("div".data ++ (" style=\"display: none\"".data ++ '>' ::
        (block ++ "</div>".data ++ t))) := by
    simp [hiddenBlock, List.append_assoc]
  rw [hshape]
  simp only [hiddenDivCap, ltMatcher, reduceIte]
  rw [hiddenDivBody_at _ block t (by decide) (by decide) hblock]
  have h22 : ([' ', 's', 't', 'y', 'l', 'e', '=', '\"', 'd', 'i', 's', 'p', 'l', 'a', 'y',
      ':', ' ', 'n', 'o', 'n', 'e', '\"'] : List Char).length = 22 := by decide
  rw [Option.map_some', h22]
  have : 3 + 22 + 1 + block.length + 6 + (List.takeWhile isRegexSpace t).length + 1 =
      33 + block.length + (List.takeWhile isRegexSpace t).length := by omega
  simp only []
  rw [this]

theorem hiddenBlock_append_drop (block t : List Char) :
    (hiddenBlock block ++ t).drop (33 + block.length + (t.takeWhile isRegexSpace).length) =
      t.dropWhile isRegexSpace := by
  have hshape : hiddenBlock block ++ t =
      "<div style=\"display: none\">".data ++ ((block ++ "</div>".data) ++ t) := by
    simp [hiddenBlock, List.append_assoc]
  rw [hshape]
  have hlen : 33 + block.length + (t.takeWhile isRegexSpace).length =
      ("<div style=\"display: none\">".data).length +
        ((block ++ "</div>".data).length + (t.takeWhile isRegexSpace).length) := by
    simp
    omega
  rw [hlen, drop_append_plus, drop_append_plus, drop_takeWhile_length]

theorem hiddenDivRemove_at (block t : List Char) (hblock : ∀ c ∈ block, c ≠ '<') :
    hiddenDivRemove (hiddenBlock block ++ t) =
      some (33 + block.length + (t.takeWhile isRegexSpace).length, []) := by
  have hshape : hiddenBlock block ++ t =
      '<' :: ("div".data ++ (" style=\"display: none\"".data ++ '>' ::
        (block ++ "</div>".data ++ t))) := by
    simp [hiddenBlock, List.append_assoc]
  rw [hshape]
  simp only [hiddenDivRemove, ltMatcher, reduceIte]
  rw [hiddenDivBody_at _ block t (by decide) (by decide) hblock]
  have h22 : ([' ', 's', 't', 'y', 'l', 'e', '=', '\"', 'd', 'i', 's', 'p', 'l', 'a', 'y',
      ':', ' ', 'n', 'o', 'n', 'e', '\"'] : List Char).length = 22 := by decide
  rw [Option.map_some', Option.map_some', h22]
  have : 3 + 22 + 1 + block.length + 6 + (List.takeWhile isRegexSpace t).length + 1 =
      33 + block.length + (List.takeWhile isRegexSpace t).length := by omega
  simp only []
  rw [this]

theorem scanCollect_no_match_nil (m : Matcher)
    (hm : ∀ (c : Char) (rest : List Char), c ≠ '<' → m (c :: rest) = none) :
    ∀ (f : Nat) (s : List Char), (∀ c ∈ s, c ≠ '<') → scanCollect m f s = [] := by
  intro f
  induction f with
  | zero => intro s _; rfl
  | succ f ih =>
    intro s h
    cases s with
    | nil => rfl
    | cons c rest =>
      rw [scanCollect, hm c rest (h c (List.mem_cons_self c rest))]
      exact ih rest (fun x hx => h x (List.mem_cons_of_mem c hx))

theorem scanCollect_skip (m : Matcher)
    (hm : ∀ (c : Char) (rest : List Char), c ≠ '<' → m (c :: rest) = none)
    (pre : List Char) (hpre : ∀ c ∈ pre, c ≠ '<') :
    ∀ (f : Nat) (t : List Char), pre.length ≤ f →
      scanCollect m f (pre ++ t) = scanCollect m (f - pre.length) t := by
  induction pre with
  | nil => intro f t _; simp
  | cons c pre ih =>
    intro f t hf
    cases f with
    | zero => simp at hf
    | succ f =>
      rw [List.cons_append, scanCollect,
        hm c (pre ++ t) (hpre c (List.mem_cons_self c pre))]
      rw [ih (fun x hx => hpre x (List.mem_cons_of_mem c hx)) f t (by simpa using hf)]
      rw [List.length_cons, Nat.succ_sub_succ]

theorem scanReplace_skip (m : Matcher)
    (hm : ∀ (c : Char) (rest : List Char), c ≠ '<' → m (c :: rest) = none)
    (pre : List Char) (hpre : ∀ c ∈ pre, c ≠ '<') :
    ∀ (f : Nat) (t : List Char), pre.length ≤ f →
      scanReplace m f (pre ++ t) = pre ++ scanReplace m (f - pre.length) t := by
  induction pre with
  | nil => intro f t _; simp
  | cons c pre ih =>
    intro f t hf
    cases f with
    | zero => simp at hf
    | succ f =>
      rw [List.cons_append, scanReplace,
        hm c (pre ++ t) (hpre c (List.mem_cons_self c pre))]
      rw [ih (fun x hx => hpre x (List.mem_cons_of_mem c hx)) f t (by simpa using hf)]
      rw [List.length_cons, Nat.succ_sub_succ, List.cons_append]

theorem hiddenDivCap_not_lt (c : Char) (rest : List Char) (hc : c ≠ '<') :
    hiddenDivCap (c :: rest) = none := by
  rw [hiddenDivCap, ltMatcher]
  exact if_neg hc

theorem hiddenDivRemove_not_lt (c : Char) (rest : List Char) (hc : c ≠ '<') :
    hiddenDivRemove (c :: rest) = none := by
  rw [hiddenDivRemove, ltMatcher]
  exact if_neg hc

theorem scanCollect_cons_match (m : Matcher) (f : Nat) (c : Char) (rest : List Char)
    (len : Nat) (cap : List Char) (hm : m (c :: rest) = some (len, cap)) :
    scanCollect m (f + 1) (c :: rest) = cap :: scanCollect m f ((c :: rest).drop len) := by
  rw [scanCollect, hm]

theorem scanReplace_cons_match (m : Matcher) (f : Nat) (c : Char) (rest : List Char)
    (len : Nat) (rep : List Char) (hm : m (c :: rest) = some (len, rep)) :
    scanReplace m (f + 1) (c :: rest) = rep ++ scanReplace m f ((c :: rest).drop len) := by
  rw [scanReplace, hm]

theorem hiddenBlock_length (b : List Char) : (hiddenBlock b).length = 33 + b.length := by
  simp [hiddenBlock]
  omega

theorem hiddenBlock_cons (b t : List Char) : hiddenBlock b ++ t =
    '<' :: ("div".data ++ (" style=\"display: none\"".data ++ '>' ::
      (b ++ "</div>".data ++ t))) := by
  simp [hiddenBlock, List.append_assoc]

theorem scanCollect_hidden (pre b t : List Char) (f : Nat)
    (hpre : ∀ c ∈ pre, c ≠ '<') (hb : ∀ c ∈ b, c ≠ '<')
    (hf : pre.length + 1 ≤ f) :
    scanCollect hiddenDivCap f (pre ++ (hiddenBlock b ++ t)) =
      b :: scanCollect hiddenDivCap (f - pre.length - 1) (t.dropWhile isRegexSpace) := by
  rw [scanCollect_skip hiddenDivCap hiddenDivCap_not_lt pre hpre f _ (by omega)]
  obtain ⟨g, hg⟩ : ∃ g, f - pre.length = g + 1 := ⟨f - pre.length - 1, by omega⟩
  rw [hg]
  rw [hiddenBlock_cons]
  rw [scanCollect_cons_match _ g '<' _ _ b
    (by rw [← hiddenBlock_cons]; exact hiddenDivCap_at b t hb)]
  rw [← hiddenBlock_cons, hiddenBlock_append_drop]
  have : g = f - pre.length - 1 := by omega
  rw [this, Nat.add_sub_cancel]

theorem scanReplace_hidden (pre b t : List Char) (f : Nat)
    (hpre : ∀ c ∈ pre, c ≠ '<') (hb : ∀ c ∈ b, c ≠ '<')
    (hf : pre.length + 1 ≤ f) :
    scanReplace hiddenDivRemove f (pre ++ (hiddenBlock b ++ t)) =
      pre ++ scanReplace hiddenDivRemove (f - pre.length - 1) (t.dropWhile isRegexSpace) := by
  rw [scanReplace_skip hiddenDivRemove hiddenDivRemove_not_lt pre hpre f _ (by omega)]
  obtain ⟨g, hg⟩ : ∃ g, f - pre.length = g + 1 := ⟨f - pre.length - 1, by omega⟩
  rw [hg]
  rw [hiddenBlock_cons]
  rw [scanReplace_cons_match _ g '<' _ _ []
    (by rw [← hiddenBlock_cons]; exact hiddenDivRemove_at b t hb)]
  rw [← hiddenBlock_cons, hiddenBlock_append_drop]
  have : g = f - pre.length - 1 := by omega
  rw [this, Nat.add_sub_cancel, List.nil_append]

theorem scanReplace_no_match_id (m : Matcher)
    (hm : ∀ (c : Char) (rest : List Char), c ≠ '<' → m (c :: rest) = none) :
    ∀ (f : Nat) (s : List Char), (∀ c ∈ s, c ≠ '<') → scanReplace m f s = s := by
  intro f
  induction f with
  | zero => intro s _; rfl
  | succ f ih =>
    intro s h
    cases s with
    | nil => rfl
    | cons c rest =>
      rw [scanReplace, hm c rest (h c (List.mem_cons_self c rest))]
      rw [ih rest (fun x hx => h x (List.mem_cons_of_mem c hx))]

theorem hiddenCaptures_two (pre b1 mid b2 post : List Char)
    (hpre : ∀ c ∈ pre, c ≠ '<') (hb1 : ∀ c ∈ b1, c ≠ '<')
    (hmid : ∀ c ∈ mid, c ≠ '<') (hb2 : ∀ c ∈ b2, c ≠ '<')
    (hpost : ∀ c ∈ post, c ≠ '<') :
    hiddenCaptures (pre ++ (hiddenBlock b1 ++ (mid ++ (hiddenBlock b2 ++ post)))) =
      [b1, b2] := by
  have hmid' : ∀ c ∈ mid.dropWhile isRegexSpace, c ≠ '<' :=
    fun c hc => hmid c ((List.dropWhile_sublist _).subset hc)
  have hpost' : ∀ c ∈ post.dropWhile isRegexSpace, c ≠ '<' :=
    fun c hc => hpost c ((List.dropWhile_sublist _).subset hc)
  have hmlen : (mid.dropWhile isRegexSpace).length ≤ mid.length :=
    List.Sublist.length_le (List.dropWhile_sublist _)
  have hlen : (pre ++ (hiddenBlock b1 ++ (mid ++ (hiddenBlock b2 ++ post)))).length =
      pre.length + ((33 + b1.length) + (mid.length + ((33 + b2.length) + post.length))) := by
    simp [hiddenBlock_length]
  have hdw : (mid ++ (hiddenBlock b2 ++ post)).dropWhile isRegexSpace =
      mid.dropWhile isRegexSpace ++ (hiddenBlock b2 ++ post) := by
    rw [hiddenBlock_cons, dropWhile_append_of_head_false _ _ _ _ (by decide)]
  rw [hiddenCaptures]
  rw [scanCollect_hidden pre b1 _ _ hpre hb1 (by omega)]
  congr 1
  rw [hdw]
  rw [scanCollect_hidden _ b2 post _ hmid' hb2 (by omega)]
  rw [scanCollect_no_match_nil hiddenDivCap hiddenDivCap_not_lt _ _ hpost']

theorem removeHiddenDivs_two (pre b1 mid b2 post : List Char)
    (hpre : ∀ c ∈ pre, c ≠ '<') (hb1 : ∀ c ∈ b1, c ≠ '<')
    (hmid : ∀ c ∈ mid, c ≠ '<') (hb2 : ∀ c ∈ b2, c ≠ '<')
    (hpost : ∀ c ∈ post, c ≠ '<') :
    removeHiddenDivs (pre ++ (hiddenBlock b1 ++ (mid ++ (hiddenBlock b2 ++ post)))) =
      pre ++ (mid.dropWhile isRegexSpace ++ post.dropWhile isRegexSpace) := by
  have hmid' : ∀ c ∈ mid.dropWhile isRegexSpace, c ≠ '<' :=
    fun c hc => hmid c ((List.dropWhile_sublist _).subset hc)
  have hpost' : ∀ c ∈ post.dropWhile isRegexSpace, c ≠ '<' :=
    fun c hc => hpost c ((List.dropWhile_sublist _).subset hc)
  have hmlen : (mid.dropWhile isRegexSpace).length ≤ mid.length :=
    List.Sublist.length_le (List.dropWhile_sublist _)
  have hlen : (pre ++ (hiddenBlock b1 ++ (mid ++ (hiddenBlock b2 ++ post)))).length =
      pre.length + ((33 + b1.length) + (mid.length + ((33 + b2.length) + post.length))) := by
    simp [hiddenBlock_length]
  have hdw : (mid ++ (hiddenBlock b2 ++ post)).dropWhile isRegexSpace =
      mid.dropWhile isRegexSpace ++ (hiddenBlock b2 ++ post) := by
    rw [hiddenBlock_cons, dropWhile_append_of_head_false _ _ _ _ (by decide)]
  rw [removeHiddenDivs]
  rw [scanReplace_hidden pre b1 _ _ hpre hb1 (by omega)]
  congr 1
  rw [hdw]
  rw [scanReplace_hidden _ b2 post _ hmid' hb2 (by omega)]
  rw [scanReplace_no_match_id hiddenDivRemove hiddenDivRemove_not_lt _ _ hpost']

theorem extractTitleAndClean_proj_kw (raw : List Char) :
    (extractTitleAndClean raw).2.1 = keywordsOf (stripFrontMatter raw) := rfl

theorem extractTitleAndClean_proj_body (raw : List Char) :
    (extractTitleAndClean raw).2.2 = steps5to11 (removeHiddenDivs (stripFrontMatter raw)) := by
  rw [extractTitleAndClean]

theorem keywordsOf_two (pre b1 mid b2 post : List Char)
    (hpre : ∀ c ∈ pre, c ≠ '<') (hb1 : ∀ c ∈ b1, c ≠ '<')
    (hmid : ∀ c ∈ mid, c ≠ '<') (hb2 : ∀ c ∈ b2, c ≠ '<')
    (hpost : ∀ c ∈ post, c ≠ '<')
    (ht1 : trimSpace b1 ≠ []) (ht2 : trimSpace b2 ≠ []) :
    keywordsOf (pre ++ (hiddenBlock b1 ++ (mid ++ (hiddenBlock b2 ++ post)))) =
      trimSpace b1 ++ ' ' :: trimSpace b2 := by
  rw [keywordsOf, hiddenCaptures_two pre b1 mid b2 post hpre hb1 hmid hb2 hpost]
  simp [List.filterMap_cons, ht1, ht2, joinWith]

/-- C5, counterexample: removal of a hidden block does not re-scan the
seam where the preceding and following text meet, and the residual div
stripping (step 11) has the same property, so the concatenation of
surrounding fragments can itself reassemble into a hidden block.  For this
document the returned body IS a complete hidden block (the hidden-block
scanner finds inner text `"x"` in it), contradicting "the returned body
contains no hidden block". -/
theorem C5_body_can_retain_hidden_block :
    (extractTitleAndClean "<di<div>v style=display: none>x</di<div>v>".data).2.2 =
      "<div style=display: none>x</div>".data ∧
    hiddenCaptures
      (extractTitleAndClean "<di<div>v style=display: none>x</di<div>v>".data).2.2 =
      ["x".data] := by
  decide

/-- C5 (amended): `extractTitleAndClean` collects the trimmed inner text of
every hidden block in document order, joined with single spaces (blocks
whose trimmed text is empty contribute nothing), and this happens before
the blocks are stripped; each scanned hidden block (with the whitespace
following it) is removed from the body.  Because neither the removal nor
the later tag-stripping re-scans replaced regions, the body is guaranteed
free of the hidden blocks when the surrounding text is markup-free: for a
document `pre ++ hidden(b1) ++ mid ++ hidden(b2) ++ post` whose `pre`,
`mid`, `post`, `b1`, `b2` contain no `<`, the keywords are exactly
`trim b1 ++ " " ++ trim b2` and the body is exactly the surrounding text
(with the whitespace each block's trailing `\s*` consumed removed). -/
theorem C5_keywords_before_hidden_removal (pre b1 mid b2 post : List Char)
    (hpre : ∀ c ∈ pre, c ≠ '<') (hb1 : ∀ c ∈ b1, c ≠ '<')
    (hmid : ∀ c ∈ mid, c ≠ '<') (hb2 : ∀ c ∈ b2, c ≠ '<')
    (hpost : ∀ c ∈ post, c ≠ '<')
    (hfm : "---".data.isPrefixOf
      (pre ++ (hiddenBlock b1 ++ (mid ++ (hiddenBlock b2 ++ post)))) = false)
    (ht1 : trimSpace b1 ≠ []) (ht2 : trimSpace b2 ≠ []) :
    (extractTitleAndClean
        (pre ++ (hiddenBlock b1 ++ (mid ++ (hiddenBlock b2 ++ post))))).2.1 =
      trimSpace b1 ++ ' ' :: trimSpace b2 ∧
    (extractTitleAndClean
        (pre ++ (hiddenBlock b1 ++ (mid ++ (hiddenBlock b2 ++ post))))).2.2 =
      pre ++ (mid.dropWhile isRegexSpace ++ post.dropWhile isRegexSpace) := by
  have hsf : stripFrontMatter
      (pre ++ (hiddenBlock b1 ++ (mid ++ (hiddenBlock b2 ++ post)))) =
      pre ++ (hiddenBlock b1 ++ (mid ++ (hiddenBlock b2 ++ post))) := by
    rw [stripFrontMatter, if_neg (by simp [hfm])]
  have hclean : ∀ c ∈ pre ++ (mid.dropWhile isRegexSpace ++ post.dropWhile isRegexSpace),
      c ≠ '<' := by
    intro c hc
    rcases List.mem_append.mp hc with h | h
    · exact hpre c h
    · rcases List.mem_append.mp h with h | h
      · exact hmid c ((List.dropWhile_sublist _).subset h)
      · exact hpost c ((List.dropWhile_sublist _).subset h)
  constructor
  · rw [extractTitleAndClean_proj_kw, hsf]
    exact keywordsOf_two pre b1 mid b2 post hpre hb1 hmid hb2 hpost ht1 ht2
  · rw [extractTitleAndClean_proj_body, hsf]
    rw [removeHiddenDivs_two pre b1 mid b2 post hpre hb1 hmid hb2 hpost]
    exact steps5to11_id_of_no_lt _ hclean

/-- Witness for C5: the spec's example keywords `"alpha beta"` are
extracted (together with a second block, showing document order and the
single-space join) and the body retains no trace of either block. -/
theorem C5_keywords_before_hidden_removal_witness :
    (extractTitleAndClean
        ("Intro ".data ++ (hiddenBlock " alpha beta ".data ++
          ("\nmiddle ".data ++ (hiddenBlock "gamma".data ++ " tail".data))))).2.1 =
      "alpha beta gamma".data ∧
    (extractTitleAndClean
        ("Intro ".data ++ (hiddenBlock " alpha beta ".data ++
          ("\nmiddle ".data ++ (hiddenBlock "gamma".data ++ " tail".data))))).2.2 =
      "Intro middle tail".data := by
  have h := C5_keywords_before_hidden_removal "Intro ".data " alpha beta ".data
    "\nmiddle ".data "gamma".data " tail".data
    (by decide) (by decide) (by decide) (by decide) (by decide) (by decide)
    (by decide) (by decide)
  exact ⟨h.1.trans (by decide), h.2.trans (by decide)⟩

/-! ## Claim C1: breadcrumb isolation -/

theorem joinStrings_cons_cons (sep a b : String) (t : List String) :
    joinStrings sep (a :: b :: t) = a ++ sep ++ joinStrings sep (b :: t) := rfl

theorem joinStrings_append_singleton (sep : String) (l : List String) (x : String)
    (h : l ≠ []) :
    joinStrings sep (l ++ [x]) = joinStrings sep l ++ sep ++ x := by
  induction l with
  | nil => exact absurd rfl h
  | cons a l ih =>
    cases l with
    | nil => rfl
    | cons b t =>
      rw [show (a :: b :: t) ++ [x] = a :: (b :: (t ++ [x])) from by simp]
      rw [joinStrings_cons_cons]
      rw [show b :: (t ++ [x]) = (b :: t) ++ [x] from by simp]
      rw [ih (by simp)]
      rw [joinStrings_cons_cons]
      simp [String.append_assoc]

theorem joinStrings_ne_empty_of_two (l : List String) (h : 2 ≤ l.length) :
    joinStrings " / " l ≠ "" := by
  cases l with
  | nil => simp at h
  | cons a l =>
    cases l with
    | nil => simp at h
    | cons b t =>
      rw [joinStrings_cons_cons]
      intro hemp
      have hlen := congrArg String.length hemp
      rw [String.length_append, String.length_append] at hlen
      have h3 : (" / " : String).length = 3 := by decide
      rw [h3] at hlen
      simp at hlen

theorem addDoc_path (env : Env) (mdPath docsDir repoRoot : String) (b : List String)
    (raw : String)
    (he : ".md".data.isSuffixOf mdPath.data = true)
    (hr : env.readFile (pathJoin docsDir mdPath) = some raw)
    (hb : joinStrings " / " b ≠ "") :
    (addDoc env mdPath docsDir repoRoot b).map docEntry.path = [joinStrings " / " b] := by
  rw [addDoc, if_pos he, hr]
  simp only [List.map_cons, List.map_nil]
  rw [if_neg hb]

/-- C1: breadcrumbs are isolated between sibling branches.  For a section
`s` holding two sibling sub-sections (titles `tA`, `tB`), each with one
readable leaf, the walker emits exactly two entries whose paths share the
uncorrupted prefix `breadcrumb ++ [s]` and differ only in the sibling
segment: extending the breadcrumb for the first sibling is not visible to
the second (in this embedding each recursion receives its own immutable
breadcrumb list; the corresponding Go `append` never overwrites a slot a
sibling still reads, because every entry's path string is joined before
the sibling's extension happens). -/
theorem C1_breadcrumb_isolation (env : Env) (fuel : Nat) (docsDir repoRoot : String)
    (b : List String) (s tA tB fa fb : String) (rawA rawB : String)
    (hea : ".md".data.isSuffixOf fa.data = true)
    (heb : ".md".data.isSuffixOf fb.data = true)
    (hia : "!include ".data.isPrefixOf fa.data = false)
    (hib : "!include ".data.isPrefixOf fb.data = false)
    (hra : env.readFile (pathJoin docsDir fa) = some rawA)
    (hrb : env.readFile (pathJoin docsDir fb) = some rawB) :
    (walkNavNode env fuel
      (.mapping [(s, .sequence
        [.mapping [(tA, .scalar fa)], .mapping [(tB, .scalar fb)]])])
      docsDir repoRoot b).map docEntry.path =
      [joinStrings " / " (b ++ [s]) ++ " / " ++ tA,
       joinStrings " / " (b ++ [s]) ++ " / " ++ tB] := by
  rw [walkNavNode_mapping, walkPairs_cons, walkPairs_nil, walkValue_sequence,
    walkList_cons, walkList_cons, walkList_nil,
    walkNavNode_mapping, walkPairs_cons, walkPairs_nil, walkValue_scalar,
    walkNavNode_mapping, walkPairs_cons, walkPairs_nil, walkValue_scalar,
    hia, hib]
  simp only [cond_false, List.append_nil]
  rw [List.map_append]
  rw [addDoc_path env fa docsDir repoRoot _ rawA hea hra
    (joinStrings_ne_empty_of_two _ (by simp))]
  rw [addDoc_path env fb docsDir repoRoot _ rawB heb hrb
    (joinStrings_ne_empty_of_two _ (by simp))]
  rw [joinStrings_append_singleton " / " (b ++ [s]) tA (by simp),
    joinStrings_append_singleton " / " (b ++ [s]) tB (by simp)]
  rfl

/-- Witness for C1: the two sibling leaves produce
`"Top / Guide / Alpha"` and `"Top / Guide / Beta"`. -/
theorem C1_breadcrumb_isolation_witness :
    (walkNavNode
      ⟨fun p => if p = "r/docs/a.md" then some "# A" else
        if p = "r/docs/b.md" then some "# B" else none, fun _ => none⟩ 1
      (.mapping [("Guide", .sequence
        [.mapping [("Alpha", .scalar "a.md")], .mapping [("Beta", .scalar "b.md")]])])
      "r/docs" "r" ["Top"]).map docEntry.path =
      ["Top / Guide / Alpha", "Top / Guide / Beta"] := by
  have h := C1_breadcrumb_isolation
    ⟨fun p => if p = "r/docs/a.md" then some "# A" else
      if p = "r/docs/b.md" then some "# B" else none, fun _ => none⟩ 1
    "r/docs" "r" ["Top"] "Guide" "Alpha" "Beta" "a.md" "b.md" "# A" "# B"
    (by decide) (by decide) (by decide) (by decide) (by decide) (by decide)
  exact h.trans (by decide)

/-! ## Claim C8: disambiguation recovery -/

theorem lookupIdx_mapInsert_self (idx : List (String × String)) (k v : String) :
    lookupIdx (mapInsert idx k v) k = some v := by
  rw [mapInsert]
  by_cases h : idx.any (fun kv => kv.1 == k)
  · rw [if_pos h]
    induction idx with
    | nil => simp at h
    | cons kv rest ih =>
      by_cases hk : kv.1 == k
      · rw [List.map_cons, if_pos hk, lookupIdx, List.find?_cons_of_pos _ (by simp)]
        rfl
      · rw [List.map_cons, if_neg hk]
        have hany : rest.any (fun kv => kv.1 == k) := by
          rcases List.any_eq_true.mp h with ⟨y, hy, hky⟩
          rcases List.mem_cons.mp hy with rfl | hy2
          · exact absurd hky hk
          · exact List.any_eq_true.mpr ⟨y, hy2, hky⟩
        rw [lookupIdx, List.find?_cons_of_neg _ (by simpa using hk)]
        exact ih hany
  · rw [if_neg h, lookupIdx, List.find?_append]
    rw [List.find?_eq_none.mpr (fun x hx => by
      intro hpx
      exact h (List.any_eq_true.mpr ⟨x, hx, hpx⟩))]
    rw [Option.none_or, List.find?_cons_of_pos _ (by simp)]
    rfl

theorem splitFirst_before_sep (sep : Char) (l : List Char) (hl : sep ∉ l) (t : List Char) :
    splitFirst sep (l ++ sep :: t) = some (l, t) := by
  induction l with
  | nil => simp [splitFirst]
  | cons c l ih =>
    have hc : c ≠ sep := fun hc => hl (hc ▸ List.mem_cons_self c l)
    rw [List.cons_append, splitFirst, if_neg hc,
      ih (fun hm => hl (List.mem_cons_of_mem c hm))]
    rfl

theorem string_data_slash_append (a b : String) :
    (a ++ "/" ++ b).data = a.data ++ '/' :: b.data := by
  rw [String.data_append, String.data_append]
  simp

theorem mk_data_eq (s : String) : (⟨s.data⟩ : String) = s := rfl

/-- C8 (amended): for a reference path `subsite/rest` that the current
index cannot match, whose markdown file exists on disk at
`<subsite>/docs/<rest>.md`, and whose normalized recovered file path
equals the reference path (which holds whenever `rest` contains no
interior document-root segment, does not end in `index`, and the sub-site
is not itself named `docs`), the recovery pass inserts a catalog entry
with `excluded = true` whose path is the title-cased breadcrumb
`buildNavPath url` and whose title falls back to the last URL segment when
the extracted title is empty, and it maps the reference path to that
breadcrumb in the index, so the subsequent matching pass resolves the
symbol at the exact-match tier.  When the normalized file path differs
from the reference path (e.g. a reference ending in `index` recovered via
the direct `.md` candidate), the later match can still fail -- see the
counterexample. -/
theorem C8_disambiguation_recovery (env : Env) (repoRoot subsite rest : String)
    (docs : List docEntry) (idx : List (String × String)) (e : helpURLEntry) (raw : String)
    (hurl : e.url = subsite ++ "/" ++ rest)
    (hsub : '/' ∉ subsite.data)
    (hnm : matchHelpURL e.url idx = none)
    (hr : env.readFile
      (pathJoin (pathJoin (pathJoin repoRoot subsite) "docs") (rest ++ ".md")) = some raw)
    (hkey : normalizeFilePath (relPath repoRoot
      (pathJoin (pathJoin (pathJoin repoRoot subsite) "docs") (rest ++ ".md"))) = e.url) :
    ∃ entry : docEntry,
      recoveryStep env repoRoot (docs, idx) e =
        (insertOrIgnore docEntry.path docs entry,
         mapInsert idx e.url (buildNavPath e.url)) ∧
      entry.exclude = true ∧
      entry.path = buildNavPath e.url ∧
      entry.file = relPath repoRoot
        (pathJoin (pathJoin (pathJoin repoRoot subsite) "docs") (rest ++ ".md")) ∧
      entry.title = (if (⟨(extractTitleAndClean raw.data).1⟩ : String) = ""
        then lastSegment e.url else ⟨(extractTitleAndClean raw.data).1⟩) ∧
      matchHelpURL e.url (mapInsert idx e.url (buildNavPath e.url)) =
        some (buildNavPath e.url) := by
  have hsplit : splitFirst '/' e.url.data = some (subsite.data, rest.data) := by
    rw [hurl, string_data_slash_append]
    exact splitFirst_before_sep '/' subsite.data hsub rest.data
  have hfind : findHelpFile env e.url repoRoot =
      some (buildNavPath e.url,
        relPath repoRoot (pathJoin (pathJoin (pathJoin repoRoot subsite) "docs")
          (rest ++ ".md")),
        (if (⟨(extractTitleAndClean raw.data).1⟩ : String) = ""
          then lastSegment e.url else ⟨(extractTitleAndClean raw.data).1⟩),
        ⟨(extractTitleAndClean raw.data).2.1⟩, ⟨(extractTitleAndClean raw.data).2.2⟩) := by
    rw [findHelpFile, hsplit]
    simp only [mk_data_eq]
    rw [tryCandidate, hr]
  refine ⟨⟨buildNavPath e.url,
    relPath repoRoot (pathJoin (pathJoin (pathJoin repoRoot subsite) "docs") (rest ++ ".md")),
    (if (⟨(extractTitleAndClean raw.data).1⟩ : String) = ""
      then lastSegment e.url else ⟨(extractTitleAndClean raw.data).1⟩),
    ⟨(extractTitleAndClean raw.data).2.1⟩, ⟨(extractTitleAndClean raw.data).2.2⟩, true⟩,
    ?_, rfl, rfl, rfl, rfl, ?_⟩
  · rw [recoveryStep]
    simp only [hnm, hfind, hkey]
  · rw [matchHelpURL, lookupIdx_mapInsert_self]

/-- C8, counterexample: the reference path `"guide/topics/index"` is not
matchable against the empty index, and its file exists on disk at
`guide/docs/topics/index.md`, so the claim requires the subsequent
matching pass to resolve it.  But the recovery pass indexes the entry
under `normalizeFilePath "guide/docs/topics/index.md" = "guide/topics"`
(the trailing `index` segment is stripped), which neither equals the
reference path, nor equals it with `/index` appended, nor has it as a
suffix -- so the subsequent matching pass still fails for that symbol. -/
theorem C8_recovered_index_page_unresolved :
    matchHelpURL "guide/topics/index" ([] : List (String × String)) = none ∧
    (recoveryStep
      ⟨fun p => if p = "/r/guide/docs/topics/index.md" then some "# T\nbody" else none,
        fun _ => none⟩
      "/r" ([], []) ⟨"S", "guide/topics/index"⟩).2 =
      [("guide/topics", "Guide / Topics / Index")] ∧
    matchHelpURL "guide/topics/index"
      (recoveryStep
        ⟨fun p => if p = "/r/guide/docs/topics/index.md" then some "# T\nbody" else none,
          fun _ => none⟩
        "/r" ([], []) ⟨"S", "guide/topics/index"⟩).2 = none := by
  refine ⟨by decide, by decide, by decide⟩

/-- Witness for C8: the symbol reference `"site-a/topics/widget"` is
recovered from disk and then resolves to its title-cased breadcrumb. -/
theorem C8_disambiguation_recovery_witness :
    ∃ entry : docEntry,
      recoveryStep
        ⟨fun p => if p = "/r/site-a/docs/topics/widget.md" then some "# Widget\nbody" else none,
          fun _ => none⟩
        "/r" ([], []) ⟨"S", "site-a/topics/widget"⟩ =
        (insertOrIgnore docEntry.path [] entry,
         mapInsert [] "site-a/topics/widget" (buildNavPath "site-a/topics/widget")) ∧
      entry.exclude = true ∧
      entry.path = buildNavPath "site-a/topics/widget" ∧
      entry.file = relPath "/r"
        (pathJoin (pathJoin (pathJoin "/r" "site-a") "docs") ("topics/widget" ++ ".md")) ∧
      entry.title = (if (⟨(extractTitleAndClean ("# Widget\nbody" : String).data).1⟩ : String) = ""
        then lastSegment "site-a/topics/widget"
        else ⟨(extractTitleAndClean ("# Widget\nbody" : String).data).1⟩) ∧
      matchHelpURL "site-a/topics/widget"
        (mapInsert [] "site-a/topics/widget" (buildNavPath "site-a/topics/widget")) =
        some (buildNavPath "site-a/topics/widget") :=
  C8_disambiguation_recovery
    ⟨fun p => if p = "/r/site-a/docs/topics/widget.md" then some "# Widget\nbody" else none,
      fun _ => none⟩
    "/r" "site-a" "topics/widget" [] [] ⟨"S", "site-a/topics/widget"⟩ "# Widget\nbody"
    (by decide) (by decide) (by decide) (by decide) (by decide)

/-! ## Claim C9: error propagation -/

theorem walkList_append (env : Env) (fuel : Nat) (ns1 ns2 : List NavNode)
    (docsDir repoRoot : String) (b : List String) :
    walkList env fuel (ns1 ++ ns2) docsDir repoRoot b =
      walkList env fuel ns1 docsDir repoRoot b ++
      walkList env fuel ns2 docsDir repoRoot b := by
  induction ns1 with
  | nil => rw [List.nil_append, walkList_nil, List.nil_append]
  | cons n rest ih =>
    rw [List.cons_append, walkList_cons, walkList_cons, ih, List.append_assoc]

/-- C9: (1) an unreadable or unparsable top-level configuration aborts the
run with no catalog produced; (2) a leaf without the `.md` extension is
silently ignored; (3) an unreadable document is skipped (the Go code also
logs a warning, which this embedding does not model); (4) an unreadable or
unparsable included sub-configuration skips only that sub-tree; (5) the
walk of a node list is the concatenation of the walks of its parts, so a
skipped leaf or sub-tree never affects the rest of the catalog. -/
theorem C9_error_propagation :
    (∀ (env : Env) (fuel : Nat) (tmpDir : String),
      env.configs (pathJoin tmpDir "mkdocs.yml") = none →
      runCatalog env fuel tmpDir = none) ∧
    (∀ (env : Env) (mdPath docsDir repoRoot : String) (b : List String),
      ".md".data.isSuffixOf mdPath.data = false →
      addDoc env mdPath docsDir repoRoot b = []) ∧
    (∀ (env : Env) (mdPath docsDir repoRoot : String) (b : List String),
      env.readFile (pathJoin docsDir mdPath) = none →
      addDoc env mdPath docsDir repoRoot b = []) ∧
    (∀ (env : Env) (fuel : Nat) (value title repoRoot : String) (b : List String),
      env.configs (pathJoin repoRoot (includeTarget value)) = none →
      handleInclude env fuel value title repoRoot b = []) ∧
    (∀ (env : Env) (fuel : Nat) (ns1 ns2 : List NavNode) (docsDir repoRoot : String)
      (b : List String),
      walkList env fuel (ns1 ++ ns2) docsDir repoRoot b =
        walkList env fuel ns1 docsDir repoRoot b ++
        walkList env fuel ns2 docsDir repoRoot b) := by
  refine ⟨?_, ?_, ?_, ?_, walkList_append⟩
  · intro env fuel tmpDir hc
    rw [runCatalog, hc]
  · intro env mdPath docsDir repoRoot b he
    rw [addDoc, if_neg (by simp [he])]
  · intro env mdPath docsDir repoRoot b hr
    rw [addDoc]
    by_cases he : ".md".data.isSuffixOf mdPath.data
    · rw [if_pos he, hr]
    · rw [if_neg he]
  · intro env fuel value title repoRoot b hc
    cases fuel with
    | zero => exact handleInclude_zero env value title repoRoot b
    | succ fuel => rw [handleInclude_succ, hc]

/-- Witness for C9 at concrete inputs: a failed top-level config load
yields no catalog; a `.txt` leaf and an unreadable `.md` leaf yield no
entry; a failed include yields no entries for that branch; and a walk
splits over list concatenation. -/
theorem C9_error_propagation_witness :
    runCatalog ⟨fun _ => none, fun _ => none⟩ 1 "/t" = none ∧
    addDoc ⟨fun _ => none, fun _ => none⟩ "page.txt" "d" "r" [] = [] ∧
    addDoc ⟨fun _ => none, fun _ => none⟩ "page.md" "d" "r" [] = [] ∧
    handleInclude ⟨fun _ => none, fun _ => none⟩ 1 "!include sub/mkdocs.yml" "T" "/r" [] = [] ∧
    walkList ⟨fun _ => none, fun _ => none⟩ 1
        ([NavNode.scalar "a.md"] ++ [NavNode.scalar "b.md"]) "d" "r" [] =
      walkList ⟨fun _ => none, fun _ => none⟩ 1 [NavNode.scalar "a.md"] "d" "r" [] ++
      walkList ⟨fun _ => none, fun _ => none⟩ 1 [NavNode.scalar "b.md"] "d" "r" [] :=
  ⟨C9_error_propagation.1 _ 1 "/t" rfl,
   C9_error_propagation.2.1 _ "page.txt" "d" "r" [] (by decide),
   C9_error_propagation.2.2.1 _ "page.md" "d" "r" [] (by decide),
   C9_error_propagation.2.2.2.1 _ 1 "!include sub/mkdocs.yml" "T" "/r" [] rfl,
   C9_error_propagation.2.2.2.2 _ 1 [NavNode.scalar "a.md"] [NavNode.scalar "b.md"] "d" "r" []⟩
